import Mathlib

/-!
Verification of the dervo configuration/checkout system against its
natural-language specification.

The definitions below are a shallow embedding of the Python source:
  * `src/dervo/snippets.py`   (gir_merge_dicts, set_dd, flatten_nested_dict)
  * `src/dervo/config.py`     (snake_create, yml_list_merge, _find_pyeval_queries,
                               _perform_pyeval_updates)
  * `src/dervo/experiment.py` (merge_yml_orderly, prepare_updates_to_yml_given_py)
  * `src/dervo/checkout.py`   (git_repo_perform_checkout_and_postcmd,
                               git_repo_is_checkout_complete, git_repo_careful_checkout)

YAML values are modelled by the mutual inductive `Yaml` below; Python dicts
are insertion-ordered association lists (`YEntries`), matching CPython
semantics: assigning to an existing key keeps its position, assigning to a
fresh key appends at the end.
-/

namespace Dervo

mutual
/-- A YAML value as loaded by the Python code: null, bool, int, string,
mapping (insertion-ordered, as Python dicts are) or sequence. -/
inductive Yaml where
  | ynull : Yaml
  | ybool : Bool → Yaml
  | yint : Int → Yaml
  | ystr : String → Yaml
  | ymap : YEntries → Yaml
  | yseq : YList → Yaml
  deriving DecidableEq

inductive YEntries where
  | nil : YEntries
  | cons : String → Yaml → YEntries → YEntries
  deriving DecidableEq

inductive YList where
  | nil : YList
  | cons : Yaml → YList → YList
  deriving DecidableEq
end

/-- Convert a Lean list of pairs into an insertion-ordered mapping (notation
helper for writing concrete configurations). -/
def yentries : List (String × Yaml) → YEntries
  | [] => .nil
  | (k, v) :: rest => .cons k v (yentries rest)

/-- Python `d[k]` / `k in d`: first (and in a real dict, only) binding of `k`. -/
def YEntries.lookup : YEntries → String → Option Yaml
  | .nil, _ => none
  | .cons k0 v rest, k => if k0 = k then some v else rest.lookup k

/-- The keys of a mapping, in insertion order. -/
def YEntries.keys : YEntries → List String
  | .nil => []
  | .cons k _ rest => k :: rest.keys

/-- Python `d[k] = v` on a dict: overwrite in place if the key exists,
append at the end otherwise. -/
def yset : YEntries → String → Yaml → YEntries
  | .nil, k, v => .cons k v .nil
  | .cons k0 v0 rest, k, v =>
      if k0 = k then .cons k0 v rest else .cons k0 v0 (yset rest k v)

/-- Structural induction on the entry-list skeleton of a mapping (the
auto-generated eliminator of the mutual family has several motives, which
the `induction` tactic does not accept). -/
def YEntries.inductionOn {motive : YEntries → Prop} (e : YEntries)
    (nil : motive .nil)
    (cons : ∀ k v rest, motive rest → motive (.cons k v rest)) : motive e :=
  match e with
  | .nil => nil
  | .cons k v rest => cons k v rest (rest.inductionOn nil cons)

mutual
/-- From `snippets.py` lines 77-85, `gir_merge_dicts(user, default)`:
if both arguments are dicts, copy each `default` binding into `user`,
recursively merging bindings whose key is already present; otherwise return
`user` unchanged. -/
def gir_merge_dicts : Yaml → Yaml → Yaml
  | .ymap u, .ymap d => .ymap (girMergeInto u d)
  | u, _ => u

/-- The `for k, v in default.items()` loop of `gir_merge_dicts`: for each
binding of `default`, `user[k] = v` when `k` is absent from `user`
(appending at the end, as a Python dict does), and
`user[k] = gir_merge_dicts(user[k], v)` (updated in place) otherwise. -/
def girMergeInto : YEntries → YEntries → YEntries
  | u, .nil => u
  | u, .cons k v rest =>
      girMergeInto
        (match u.lookup k with
         | some uv => yset u k (gir_merge_dicts uv v)
         | none => yset u k v) rest
end

/-- From `config.py` lines 54-58, `yml_list_merge(cfgs)`: fold the fragments,
lowest priority first, each incoming fragment merged as the `user`
(winning) argument over the accumulator.  The `copy.deepcopy` of the
source is the identity in this pure model. -/
def yml_list_merge (cfgs : List Yaml) : Yaml :=
  cfgs.foldl (fun merged cfg => gir_merge_dicts cfg merged) (.ymap .nil)

/-- Combine two optional values, merging with `gir_merge_dicts` when both are
present (the first argument plays the `user`, i.e. winning, role). -/
def omerge : Option Yaml → Option Yaml → Option Yaml
  | some uv, some dv => some (gir_merge_dicts uv dv)
  | some uv, none => some uv
  | none, some dv => some dv
  | none, none => none

/-- Is this value a mapping? (Python `isinstance(x, dict)`.) -/
def Yaml.isMap : Yaml → Bool
  | .ymap _ => true
  | _ => false

/-- Top-level keys of a configuration (empty for non-mappings). -/
def topKeys : Yaml → List String
  | .ymap es => es.keys
  | _ => []

/-- Two-level path lookup: the value at `m[k1][k2]` when `m` and `m[k1]`
are mappings (used to compare merge results as mappings, independently of
entry order). -/
def ypath2 (y : Yaml) (k1 k2 : String) : Option Yaml :=
  match y with
  | .ymap es =>
      (match es.lookup k1 with
       | some (.ymap es2) => es2.lookup k2
       | _ => none)
  | _ => none

/-! ### Walking up the directory tree (`config.py`, `snake_create`) -/

/-- A directory path, deepest component first; `[]` is the filesystem
root.  `ancestors p` is `itertools.chain([path], path.parents)`: the
directory itself, then each parent up to and including the root. -/
def ancestors : List String → List (List String)
  | [] => [[]]
  | c :: rest => (c :: rest) :: ancestors rest

/-- The loop of `config.py` lines 45-50 over `chain([path], path.parents)`,
with the filesystem modelled as a listing function `fs`: record
`(fold, files)` for each visited directory and break (after recording) as
soon as the listing contains `stop_filename`. -/
def snake_scan (fs : List String → List String) (stop_filename : String) :
    List (List String) → List (List String × List String)
  | [] => []
  | fold :: rest =>
      let files := fs fold
      if stop_filename ∈ files then [(fold, files)]
      else (fold, files) :: snake_scan fs stop_filename rest

/-- From `config.py` lines 37-51, `snake_create`: scan upward from `path`, then
reverse (`dict(snake_lst[::-1])`; the keys are pairwise distinct, so the
dict is faithfully an association list). -/
def snake_create (fs : List String → List String) (path : List String)
    (stop_filename : String) : List (List String × List String) :=
  (snake_scan fs stop_filename (ancestors path)).reverse

/-! ### PYEVAL scanning and substitution
(`config.py` `_find_pyeval_queries` / `_perform_pyeval_updates`,
`snippets.py` `flatten_nested_dict` / `set_dd`) -/

/-- Python dict assignment on a plain item list (`dict(items)` builds the
dict by successive assignment: first occurrence keeps its position, the
last value wins). -/
def assocSetL : List (String × Yaml) → String → Yaml → List (String × Yaml)
  | [], k, v => [(k, v)]
  | (k0, v0) :: rest, k, v =>
      if k0 = k then (k0, v) :: rest else (k0, v0) :: assocSetL rest k v

/-- The item list accumulated by `snippets.py` lines 88-96,
`flatten_nested_dict(d, parent_key, sep='.')`: descend into mapping values,
record non-mapping leaves under their dotted key. -/
def flattenEntries : YEntries → String → List (String × Yaml)
  | .nil, _ => []
  | .cons k v rest, parent =>
      let nk := if parent = "" then k else parent ++ "." ++ k
      (match v with
       | .ymap es => flattenEntries es nk
       | leaf => [(nk, leaf)]) ++ flattenEntries rest parent

/-- The call of `flatten_nested_dict` with empty parent key and dot separator, as at `config.py` line 116:
the accumulated items turned into a dict (`dict(items)`, last value wins —
the nested per-level `dict` calls of the source compose to exactly this
one global last-wins pass). -/
def flatten_nested_dict (es : YEntries) : List (String × Yaml) :=
  (flattenEntries es "").foldl (fun acc kv => assocSetL acc kv.1 kv.2) []

/-- Capture group 2 of `(PY|py)@(.+)` once the `@` has been consumed:
`.` matches anything but a newline, `+` requires at least one character. -/
def pyevalGroup2 (l : List Char) : Option (List Char) :=
  let e := l.takeWhile (fun c => c ≠ '\n')
  if e.isEmpty then none else some e

/-- Python `re.match(TEMPLATE_PYEVAL, value)` with
TEMPLATE_PYEVAL the pattern `(PY|py)@(.+)` (`config.py` lines 27 and 121),
anchored at the start of the string; returns capture group 2. -/
def matchPyevalChars : List Char → Option (List Char)
  | 'P' :: 'Y' :: '@' :: rest => pyevalGroup2 rest
  | 'p' :: 'y' :: '@' :: rest => pyevalGroup2 rest
  | _ => none

/-- String version of `matchPyevalChars`. -/
def matchPyeval (s : String) : Option String :=
  (matchPyevalChars s.data).map (fun cs => String.mk cs)

/-- Python `key.split` on the dot separator (auxiliary recursion over characters). -/
def splitDotAux : List Char → List Char → List String
  | [], acc => [String.mk acc.reverse]
  | c :: rest, acc =>
      if c = '.' then String.mk acc.reverse :: splitDotAux rest []
      else splitDotAux rest (c :: acc)

/-- Python `key.split` on the dot separator. -/
def dotSplit (s : String) : List String :=
  splitDotAux s.data []

/-- From `snippets.py` lines 63-74, `set_dd(d, key, value)`: walk the key parts,
`dd = dd.setdefault(k, \x7b\x7d)` for every intermediate part (creating
missing levels), then assign at the last part.  `none` models the
`AttributeError` Python raises when an intermediate part is bound to a
non-dict value. -/
def set_dd_parts : YEntries → List String → Yaml → Option YEntries
  | _, [], _ => none
  | d, [latest], v => some (yset d latest v)
  | d, k :: rest, v =>
      match d.lookup k with
      | some (.ymap sub) =>
          (set_dd_parts sub rest v).map (fun s => yset d k (.ymap s))
      | some _ => none
      | none =>
          (set_dd_parts .nil rest v).map (fun s => yset d k (.ymap s))

/-- Function `set_dd` on a dotted key. -/
def set_dd (d : YEntries) (key : String) (v : Yaml) : Option YEntries :=
  set_dd_parts d (dotSplit key) v

/-- From `config.py` lines 115-124: scan the flattened configuration of one level and
collect `(dot_key, expression)` for every string leaf matching the PYEVAL
template. -/
def find_pyeval_queries_one (es : YEntries) : List (String × String) :=
  (flatten_nested_dict es).filterMap (fun kv =>
    match kv.2 with
    | .ystr s => (matchPyeval s).map (fun e => (kv.1, e))
    | _ => none)

/-- Nonempty all-digit character list to a number. -/
def digitsGo : List Char → Nat → Option Nat
  | [], acc => some acc
  | c :: rest, acc =>
      if c.isDigit then digitsGo rest (acc * 10 + (c.toNat - 48)) else none

/-- Parse a nonnegative integer literal. -/
def digitsToNat : List Char → Option Nat
  | [] => none
  | l => digitsGo l 0

/-- Split a character list at the first `+`. -/
def splitPlusOnce : List Char → Option (List Char × List Char)
  | [] => none
  | c :: rest =>
      if c = '+' then some ([], rest)
      else (splitPlusOnce rest).map (fun p => (c :: p.1, p.2))

/-- Body of a single-quoted string literal followed by `)`: returns its
length. -/
def lenBody : List Char → Nat → Option Nat
  | [], _ => none
  | c :: rest, n =>
      if c = Char.ofNat 39 then
        match rest with
        | [')'] => some n
        | _ => none
      else lenBody rest (n + 1)

/-- Modelled from the spec: the evaluation of a substitution expression by
the host Python interpreter (the `exec` of the assembled script at
`config.py` line 205 — the interpreter itself is not part of this
repository).  Supports the forms exercised by the examples of the spec:
integer literals, a single binary `+` on integer literals, and
`len(<single-quoted string literal>)`. -/
def pyEvalExpr (e : String) : Option Yaml :=
  match e.data with
  | 'l' :: 'e' :: 'n' :: '(' :: rest =>
      (match rest with
       | q :: body =>
           if q = Char.ofNat 39 then (lenBody body 0).map (fun n => .yint n)
           else none
       | [] => none)
  | cs =>
      (match splitPlusOnce cs with
       | some (a, b) =>
           (match digitsToNat a, digitsToNat b with
            | some x, some y => some (.yint ((x : Int) + y))
            | _, _ => none)
       | none => (digitsToNat cs).map (fun n => .yint (n : Int)))

/-- Evaluate every emitted query of one level and splice the result back at
the dotted key of the query (`config.py` lines 218-222: `set_dd(yml_config,
dot_key, value)` for each update). -/
def resolve_pyeval_one (es : YEntries) : Option YEntries :=
  (find_pyeval_queries_one es).foldlM
    (fun c kq => (pyEvalExpr kq.2).bind (fun v => set_dd c kq.1 v)) es

/-- From `config.py` lines 106-134, `_find_pyeval_queries`: per-level queries,
levels without queries omitted; when an allow-list is given, keep only
allowed dotted keys and again drop levels left empty.  (The source
iterates a set intersection, whose order is immaterial downstream; we keep
the original query order.) -/
def find_pyeval_queries (yml_configs : List (Nat × YEntries))
    (pyeval_allowed_keys : Option (List String)) :
    List (Nat × List (String × String)) :=
  let base := yml_configs.filterMap (fun lc =>
    let qs := find_pyeval_queries_one lc.2
    if qs.isEmpty then none else some (lc.1, qs))
  match pyeval_allowed_keys with
  | none => base
  | some allowed => base.filterMap (fun lq =>
      let qa := lq.2.filter (fun kq => kq.1 ∈ allowed)
      if qa.isEmpty then none else some (lq.1, qa))

/-- Host-system actions of `_perform_pyeval_updates`: reading the `cfg.py`
of a level, compiling the assembled script, executing it. -/
inductive PyevalAction where
  | readPyFile : Nat → PyevalAction
  | compileScript : PyevalAction
  | execScript : PyevalAction
  deriving DecidableEq

/-- Level lookup in the `yml_configs` dict. -/
def lookupNat : List (Nat × YEntries) → Nat → Option YEntries
  | [], _ => none
  | (l0, c0) :: rest, l => if l0 = l then some c0 else lookupNat rest l

/-- Level assignment in the `yml_configs` dict. -/
def setNat : List (Nat × YEntries) → Nat → YEntries → List (Nat × YEntries)
  | [], l, c => [(l, c)]
  | (l0, c0) :: rest, l, c =>
      if l0 = l then (l0, c) :: rest else (l0, c0) :: setNat rest l c

/-- Apply the `_DRV_PYEVAL` updates of one level with `set_dd`, in order. -/
def apply_level_updates (cfg : YEntries) : List (String × Yaml) → Option YEntries
  | [] => some cfg
  | (k, v) :: rest => (set_dd cfg k v).bind (fun c => apply_level_updates c rest)

/-- From `config.py` lines 219-222: for every level of the retrieved
`_DRV_PYEVAL` dict, update the configuration of that level (`none` models the
`KeyError`/`AttributeError` paths). -/
def apply_updates (cfgs : List (Nat × YEntries)) :
    List (Nat × List (String × Yaml)) → Option (List (Nat × YEntries))
  | [] => some cfgs
  | (lvl, ups) :: rest =>
      match lookupNat cfgs lvl with
      | none => none
      | some cfg =>
          (apply_level_updates cfg ups).bind
            (fun c => apply_updates (setNat cfgs lvl c) rest)

/-- From `config.py` lines 150-232, `_perform_pyeval_updates`, at the
granularity of host actions: with no queries the function returns at line
162 before reading any `cfg.py`, before compiling and before executing
anything, leaving the configurations untouched; otherwise it reads the
`cfg.py` of every level that has one, compiles and executes the assembled
script (its resulting `_DRV_PYEVAL` dict supplied here as `execUpdates`)
and splices the updates into the per-level configurations. -/
def perform_pyeval_updates (snakeHasPy : Nat → Bool) (nLevels : Nat)
    (pyeval_queries : List (Nat × List (String × String)))
    (execUpdates : List (Nat × List (String × Yaml)))
    (yml_configs : List (Nat × YEntries)) :
    List PyevalAction × Option (List (Nat × YEntries)) :=
  if pyeval_queries.isEmpty then ([], some yml_configs)
  else
    (((List.range nLevels).filterMap (fun l =>
        if snakeHasPy l then some (PyevalAction.readPyFile l) else none))
      ++ [PyevalAction.compileScript, PyevalAction.execScript],
     apply_updates yml_configs execUpdates)

/-! ### Reproducible code snapshot cache (`checkout.py`) -/

/-- An action performed on the filesystem/subprocess layer during a
checkout.  Write actions carry the checkout directory they write under:
`mkdirE f` is `vst.mkdir(f)`; `cloneE f sub` is `git_shared_clone` into
`f` (for `sub = "."`) or into `f/sub` (submodules); `postTry f i` is
attempt `i` of running `post_cmd` inside `f`; `touchFinished f` touches
the FINISHED marker file under `f`; `sleepE` is `time.sleep(5)`; `checkE i` is call
`i` of `git_repo_is_checkout_complete`. -/
inductive CoEvent where
  | mkdirE : String → CoEvent
  | cloneE : String → String → CoEvent
  | postTry : String → Nat → CoEvent
  | sleepE : CoEvent
  | checkE : Nat → CoEvent
  | touchFinished : String → CoEvent
  deriving DecidableEq

/-- The checkout directory an event writes under (`none` for the read-only
events `sleepE` and `checkE`). -/
def CoEvent.foldOf : CoEvent → Option String
  | .mkdirE f => some f
  | .cloneE f _ => some f
  | .postTry f _ => some f
  | .touchFinished f => some f
  | .sleepE => none
  | .checkE _ => none

/-- Is this event a poll of the existing directory? -/
def CoEvent.isCheck : CoEvent → Bool
  | .checkE _ => true
  | _ => false

/-- Is this event a `post_cmd` attempt? -/
def CoEvent.isPostTry : CoEvent → Bool
  | .postTry _ _ => true
  | _ => false

/-- Is this event a `time.sleep(5)`? -/
def CoEvent.isSleep : CoEvent → Bool
  | .sleepE => true
  | _ => false

/-- Outcomes of the external git/subprocess collaborators: whether each
`git_shared_clone` into a given directory (for a given source) succeeds,
whether `post_cmd` attempt `i` succeeds, and the submodule names reported
by `git submodule status`. -/
structure CoEnv where
  cloneOk : String → String → Bool
  postOk : Nat → Bool
  submodules : List String

/-- The shared retry shape of `checkout.py` (`for i in range(n): try
attempt; break on success; sleep(5)`): attempts `i, i+1, ...` while `rem`
budget remains, emitting `mk j` per attempt and a sleep after each
failure; the Bool is `True` when some attempt succeeded. -/
def retry_loop (ok : Nat → Bool) (mk : Nat → CoEvent) :
    Nat → Nat → List CoEvent × Bool
  | _, 0 => ([], false)
  | i, rem + 1 =>
      if ok i then ([mk i], true)
      else
        let r := retry_loop ok mk (i + 1) rem
        (mk i :: .sleepE :: r.1, r.2)

/-- From `checkout.py` lines 90-95: clone each submodule individually; a failing
clone raises out of the loop (events after the failure do not happen). -/
def clone_submodules (env : CoEnv) (fold : String) :
    List String → List CoEvent × Bool
  | [] => ([], true)
  | sm :: rest =>
      if env.cloneOk fold sm then
        let r := clone_submodules env fold rest
        (.cloneE fold sm :: r.1, r.2)
      else ([.cloneE fold sm], false)

/-- From `checkout.py` lines 79-115, `git_repo_perform_checkout_and_postcmd`:
mkdir and shared-clone into `fold`, clone each submodule, then (when a
`post_cmd` is configured) retry it up to `n_post_cmd_tries` times with a
fixed `time.sleep(5)` between attempts — raising `OSError` when every
attempt failed — and only then touch the `FINISHED` marker.  The Bool is
`True` when the function returns normally, `False` when it raises (a
failed clone propagates its exception; exhausted retries raise). -/
def git_repo_perform_checkout_and_postcmd (env : CoEnv) (fold : String)
    (post_cmd : Option String) (n_post_cmd_tries : Nat) : List CoEvent × Bool :=
  if env.cloneOk fold "." then
    let sub := clone_submodules env fold env.submodules
    if sub.2 then
      match post_cmd with
      | none =>
          ([.mkdirE fold, .cloneE fold "."] ++ sub.1 ++ [.touchFinished fold],
           true)
      | some _ =>
          let post := retry_loop env.postOk (.postTry fold) 0 n_post_cmd_tries
          if post.2 then
            ([.mkdirE fold, .cloneE fold "."] ++ sub.1 ++ post.1
              ++ [.touchFinished fold], true)
          else
            ([.mkdirE fold, .cloneE fold "."] ++ sub.1 ++ post.1, false)
    else ([.mkdirE fold, .cloneE fold "."] ++ sub.1, false)
  else ([.mkdirE fold, .cloneE fold "."], false)

/-- The observable state of a checkout directory: whether `git.Repo`
accepts it (`none` models `NoSuchPathError`: the directory is missing,
`isRepo = false` models `InvalidGitRepositoryError`), the sha its HEAD
points at, and whether the `FINISHED` marker file exists. -/
structure DirState where
  isRepo : Bool
  headSha : String
  hasFinished : Bool
  deriving DecidableEq

/-- From `checkout.py` lines 118-129, `git_repo_is_checkout_complete`: True
exactly when the directory opens as a git repo, its HEAD commit sha equals
the requested sha, and the `FINISHED` marker exists; the three caught
exception paths return False. -/
def git_repo_is_checkout_complete (d : Option DirState) (sha : String) : Bool :=
  match d with
  | none => false
  | some s => s.isRepo && s.headSha == sha && s.hasFinished

/-- Environment of `git_repo_careful_checkout`: the collaborator outcomes,
whether the deterministic directory exists at entry, the directory state
each poll attempt observes (it may change under concurrent writers), and
the `datetime` prefix and random component `tempfile.mkdtemp` uses for the
alternate sibling directory. -/
structure CarefulEnv where
  coEnv : CoEnv
  det_exists : Bool
  detState : Nat → Option DirState
  dtPre : String
  rand : String

/-- From `checkout.py` lines 132-162, `git_repo_careful_checkout` on directory
`parent/name`: if the directory does not exist, perform the checkout
there; otherwise poll `git_repo_is_checkout_complete` up to
`n_repo_checks` times (sleeping 5s after each failure) and return the
existing directory on success; if every poll fails, `tempfile.mkdtemp`
allocates the fresh sibling `parent/<datetime-prefix><random>temp` and the
full checkout is performed there.  Returns (events, returned-normally,
returned path). -/
def git_repo_careful_checkout (env : CarefulEnv) (parent name sha : String)
    (post_cmd : Option String) (n_repo_checks : Nat) :
    List CoEvent × Bool × String :=
  let det := parent ++ "/" ++ name
  if env.det_exists then
    let poll := retry_loop
      (fun i => git_repo_is_checkout_complete (env.detState i) sha)
      CoEvent.checkE 0 n_repo_checks
    if poll.2 then (poll.1, true, det)
    else
      let alt := parent ++ "/" ++ env.dtPre ++ env.rand ++ "temp"
      let r := git_repo_perform_checkout_and_postcmd env.coEnv alt post_cmd 2
      (poll.1 ++ r.1, r.2, alt)
  else
    let r := git_repo_perform_checkout_and_postcmd env.coEnv det post_cmd 2
    (r.1, r.2, det)

/-! ### Fragment loading and duplicate keys
(`experiment.py` `merge_yml_orderly`; `config.py` `_load_yml_from_snake`
via the external `vst` loader) -/

mutual
/-- The raw structure of a YAML document text as the parser sees it before
Python objects are constructed: a mapping node lists its key/value pairs
textually, so the same key may appear twice at one nesting level. -/
inductive RawDoc where
  | rleaf : Yaml → RawDoc
  | rmap : RawEntries → RawDoc
  deriving DecidableEq

inductive RawEntries where
  | nil : RawEntries
  | cons : String → RawDoc → RawEntries → RawEntries
  deriving DecidableEq
end

/-- The keys of a raw mapping node, in textual order (with repetitions). -/
def RawEntries.keys : RawEntries → List String
  | .nil => []
  | .cons k _ rest => k :: rest.keys

mutual
/-- PyYAML `yaml.safe_load` as called by `merge_yml_orderly`
(`experiment.py` line 127): a mapping node is built by successive dict
assignment, so a duplicated key raises nothing — the last occurrence
silently wins. -/
def yaml_safe_load : RawDoc → Yaml
  | .rleaf y => y
  | .rmap es => .ymap (safeLoadEntries es .nil)

/-- The pair-by-pair dict construction of the mapping constructor. -/
def safeLoadEntries : RawEntries → YEntries → YEntries
  | .nil, acc => acc
  | .cons k v rest, acc => safeLoadEntries rest (yset acc k (yaml_safe_load v))
end

/-- From `experiment.py` lines 121-133, `merge_yml_orderly`: `yaml.safe_load`
each file in order (an empty file gives `None` and is replaced by an empty
dict), merging with `gir_merge_dicts(cfg, merged_cfg)`; the first
iteration merges with `None`, which simply returns the fragment. -/
def merge_yml_orderly (docs : List RawDoc) : Yaml :=
  match docs.foldl
      (fun (merged : Option Yaml) doc =>
        let cfg := match yaml_safe_load doc with
          | .ynull => .ymap .nil
          | c => c
        some (match merged with
              | none => gir_merge_dicts cfg .ynull
              | some mc => gir_merge_dicts cfg mc)) none with
  | none => .ymap .nil
  | some mc => mc

mutual
/-- Is some key repeated at some nesting level of the document? -/
def rawHasDup : RawDoc → Bool
  | .rleaf _ => false
  | .rmap es => if es.keys.Nodup then rawEntriesHasDup es else true

/-- Predicate `rawHasDup` over the values of a mapping node. -/
def rawEntriesHasDup : RawEntries → Bool
  | .nil => false
  | .cons _ v rest => rawHasDup v || rawEntriesHasDup rest
end

mutual
/-- Modelled from the spec: `vst.exp.yml_from_file`, the loader
`_load_yml_from_snake` uses (`config.py` lines 85-103), lives in the
external `vst` package and is not part of this repository; per the spec it
"fails with a DuplicateKey error if the file itself contains the same key
twice at the same nesting level" and otherwise loads the nested mapping.
`none` is the DuplicateKey error. -/
def yml_from_file_strict : RawDoc → Option Yaml
  | .rleaf y => some y
  | .rmap es =>
      if es.keys.Nodup then (strictEntries es).map (fun r => .ymap r)
      else none

/-- The entry-wise recursion of the strict loader. -/
def strictEntries : RawEntries → Option YEntries
  | .nil => some .nil
  | .cons k v rest =>
      match yml_from_file_strict v with
      | none => none
      | some y =>
          match strictEntries rest with
          | none => none
          | some r => some (.cons k y r)
end

/-! ### Working-directory discipline of the script evaluation
(`config.py` `_perform_pyeval_updates`, lines 203-215) -/

/-- Outcome of `exec(code, cfg_scope)` as regards the process working
directory: the assembled script changes directory (`os.chdir(_FOLD)` per
level) and then either completes or raises; either way it leaves the
process in some directory. -/
inductive ExecCwdOutcome where
  | done : String → ExecCwdOutcome
  | raised : String → ExecCwdOutcome
  deriving DecidableEq

/-- From `config.py` lines 203-215: `cwd_before = os.getcwd()` precedes the
`exec`; the restore `os.chdir(cwd_before)` at line 215 runs only on the
fall-through path — there is no try/finally, so when `exec` raises the
exception propagates out of `_perform_pyeval_updates` before line 215.
Returns (returned normally, working directory after the call). -/
def perform_pyeval_cwd (cwd_before : String) : ExecCwdOutcome → Bool × String
  | .done _ => (true, cwd_before)
  | .raised c => (false, c)

/-! ### Scoping of the script evaluation
(`config.py` lines 194-205, `pyeval_scripts.py` line 100,
`experiment.py` lines 169-181) -/

/-- A Python runtime object, at the granularity scoping needs. -/
inductive PyObj where
  | pyfunc : String → PyObj
  | pyobj : String → PyObj
  deriving DecidableEq

/-- A Python namespace: names bound to objects. -/
abbrev Scope := List (String × PyObj)

/-- From `pyeval_scripts.py` line 100: the fixed helper set seeded into the
evaluation scope — exactly the `grab` callable. -/
def PYEVAL_SCOPE : Scope := [("grab", .pyfunc "grab")]

/-- From `config.py` lines 194-205: `cfg_scope` starts as an empty dict, then
`cfg_scope.update(pyeval_scripts.PYEVAL_SCOPE)`, then
`exec(code, cfg_scope)` — the script (prelude imports of `Path`/`os`,
level scripts, `_DRV_PYEVAL` assignments, modelled together by the
arbitrary namespace transformer `execEffect`) runs against that fresh
dict only.  Returns (host module globals after the call, the namespace
exec received, the namespace after exec). -/
def perform_pyeval_exec_scoping (hostGlobals : Scope)
    (execEffect : Scope → Scope) : Scope × Scope × Scope :=
  let cfg_scope : Scope := PYEVAL_SCOPE
  (hostGlobals, cfg_scope, execEffect cfg_scope)

/-- From `experiment.py` lines 169-181, `prepare_updates_to_yml_given_py`:
`exec(code, globals())` — the assembled script runs directly in the host
global namespace of the host module (the source comments that potentially
horrible things happen, line
175).  Returns (the namespace exec received, host module globals after
the call). -/
def prepare_updates_exec_scoping (hostGlobals : Scope)
    (execEffect : Scope → Scope) : Scope × Scope :=
  (hostGlobals, execEffect hostGlobals)

-- Lookup behaviour of the merge, per key.

theorem lookup_yset (u : YEntries) (k1 k : String) (v1 : Yaml) :
    (yset u k1 v1).lookup k = if k1 = k then some v1 else u.lookup k := by
  induction u using YEntries.inductionOn with
  | nil => simp only [yset, YEntries.lookup]
  | cons k0 v0 rest ih =>
      by_cases h01 : k0 = k1
      · subst h01
        simp only [yset, if_pos rfl, YEntries.lookup]
        by_cases hk : k0 = k <;> simp [hk]
      · simp only [yset, if_neg h01, YEntries.lookup, ih]
        by_cases hk : k0 = k <;> by_cases h1 : k1 = k <;> simp_all

theorem lookup_eq_none_of_not_mem_keys {e : YEntries} {k : String}
    (h : k ∉ e.keys) : e.lookup k = none := by
  induction e using YEntries.inductionOn with
  | nil => rfl
  | cons k0 v rest ih =>
      simp only [YEntries.keys, List.mem_cons, not_or] at h
      simp only [YEntries.lookup]
      rw [if_neg (fun he => h.1 he.symm)]
      exact ih h.2

theorem lookup_girMergeInto (d : YEntries) (hd : d.keys.Nodup) :
    ∀ (u : YEntries) (k : String),
      (girMergeInto u d).lookup k = omerge (u.lookup k) (d.lookup k) := by
  induction d using YEntries.inductionOn with
  | nil =>
      intro u k
      simp only [girMergeInto, YEntries.lookup, omerge]
      cases u.lookup k <;> rfl
  | cons k1 v1 rest ih =>
      intro u k
      simp only [YEntries.keys, List.nodup_cons] at hd
      have hrest := ih hd.2
      simp only [girMergeInto]
      rw [hrest]
      by_cases hk : k1 = k
      · subst hk
        have hnone : rest.lookup k1 = none :=
          lookup_eq_none_of_not_mem_keys hd.1
        rw [hnone]
        simp only [YEntries.lookup, if_pos rfl]
        cases h : u.lookup k1 <;>
          simp [h, lookup_yset, omerge]
      · simp only [YEntries.lookup, if_neg hk]
        cases h : u.lookup k1 <;>
          simp [h, lookup_yset, hk, omerge]

/-- Merging with an empty default dict (the initial accumulator of
`yml_list_merge`) returns the incoming fragment unchanged. -/
theorem gir_merge_dicts_empty (x : Yaml) :
    gir_merge_dicts x (.ymap .nil) = x := by
  cases x <;> rfl

/-- C1.  Per-key behaviour of the deep merge driven by `yml_list_merge`
(each incoming fragment is merged by `gir_merge_dicts incoming accumulated`):
(1) for every key, the merged mapping binds the incoming value when the key
is absent from the accumulator, the accumulated value when the key is
absent from the incoming fragment, and the recursive merge
`gir_merge_dicts incoming_v accumulated_v` when both bind it (in
`yml_list_merge` the incoming fragment is the winning `user` argument and
the accumulated result the `default`);
(2) merging two mappings recurses key by key;
(3) when either side is not a mapping the incoming (`user`) value replaces
the accumulated one entirely;
(4) folding the fragments a-maps-to-x-maps-to-1 (low) then
a-maps-to-y-maps-to-2 (high) yields a mapping whose only top key is `a`,
with `a.x = 1` and `a.y = 2`;
(5) folding a-maps-to-1 (low) then a-maps-to-y-maps-to-2 (high) yields
exactly the high fragment (type replacement). -/
theorem dervo_C1 :
    (∀ (u d : YEntries) (k : String), d.keys.Nodup →
        (girMergeInto u d).lookup k = omerge (u.lookup k) (d.lookup k))
    ∧ (∀ (u d : YEntries),
        gir_merge_dicts (.ymap u) (.ymap d) = .ymap (girMergeInto u d))
    ∧ (∀ (a b : Yaml), a.isMap = false ∨ b.isMap = false →
        gir_merge_dicts a b = a)
    ∧ (topKeys (yml_list_merge
          [.ymap (yentries [("a", .ymap (yentries [("x", .yint 1)]))]),
           .ymap (yentries [("a", .ymap (yentries [("y", .yint 2)]))])]) = ["a"]
       ∧ ∀ k, ypath2 (yml_list_merge
          [.ymap (yentries [("a", .ymap (yentries [("x", .yint 1)]))]),
           .ymap (yentries [("a", .ymap (yentries [("y", .yint 2)]))])]) "a" k =
         (yentries [("x", .yint 1), ("y", .yint 2)]).lookup k)
    ∧ yml_list_merge
          [.ymap (yentries [("a", .yint 1)]),
           .ymap (yentries [("a", .ymap (yentries [("y", .yint 2)]))])] =
        .ymap (yentries [("a", .ymap (yentries [("y", .yint 2)]))]) := by
  refine ⟨fun u d k hd => lookup_girMergeInto d hd u k, fun u d => rfl, ?_, ⟨rfl, ?_⟩, rfl⟩
  · rintro a b (h | h) <;> cases a <;> cases b <;> simp [Yaml.isMap] at h ⊢ <;> rfl
  · intro k
    show (YEntries.cons "y" (.yint 2) (.cons "x" (.yint 1) .nil)).lookup k =
      (YEntries.cons "x" (.yint 1) (.cons "y" (.yint 2) .nil)).lookup k
    by_cases hx : ("x" : String) = k <;> by_cases hy : ("y" : String) = k
    · exact absurd (hx.trans hy.symm) (by decide)
    · simp [YEntries.lookup, hx, hy]
    · simp [YEntries.lookup, hx, hy]
    · simp [YEntries.lookup, hx, hy]

/-- C1 witness: the per-key merge rule instantiated at concrete overlapping
mappings, with the no-duplicate-keys hypothesis discharged by computation. -/
theorem dervo_C1_witness :
    (yentries [("p", .yint 1), ("q", .yint 2)]).keys.Nodup
    ∧ (girMergeInto (yentries [("q", .yint 9)])
          (yentries [("p", .yint 1), ("q", .yint 2)])).lookup "q" =
        omerge ((yentries [("q", .yint 9)]).lookup "q")
          ((yentries [("p", .yint 1), ("q", .yint 2)]).lookup "q") :=
  ⟨by decide, dervo_C1.1 (yentries [("q", .yint 9)])
      (yentries [("p", .yint 1), ("q", .yint 2)]) "q" (by decide)⟩

/-- C5 counterexample: with A = k-maps-to-x-maps-to-1, B = k-maps-to-5,
C = k-maps-to-y-maps-to-2, folding the list A,B,C loses the binding
`k.x` (B replaced the mapping by a scalar, C replaced the scalar by a fresh
mapping), while the right-grouped fold of A with merge of B,C resurrects
`k.x = 1`; the two results differ, so deep merge is not associative in the
claimed sense. -/
theorem dervo_C5_counterexample :
    ypath2 (yml_list_merge
        [.ymap (yentries [("k", .ymap (yentries [("x", .yint 1)]))]),
         .ymap (yentries [("k", .yint 5)]),
         .ymap (yentries [("k", .ymap (yentries [("y", .yint 2)]))])]) "k" "x" = none
    ∧ ypath2 (yml_list_merge
        [.ymap (yentries [("k", .ymap (yentries [("x", .yint 1)]))]),
         yml_list_merge
           [.ymap (yentries [("k", .yint 5)]),
            .ymap (yentries [("k", .ymap (yentries [("y", .yint 2)]))])]]) "k" "x" =
        some (.yint 1)
    ∧ yml_list_merge
        [.ymap (yentries [("k", .ymap (yentries [("x", .yint 1)]))]),
         .ymap (yentries [("k", .yint 5)]),
         .ymap (yentries [("k", .ymap (yentries [("y", .yint 2)]))])] ≠
      yml_list_merge
        [.ymap (yentries [("k", .ymap (yentries [("x", .yint 1)]))]),
         yml_list_merge
           [.ymap (yentries [("k", .yint 5)]),
            .ymap (yentries [("k", .ymap (yentries [("y", .yint 2)]))])]] := by
  refine ⟨rfl, rfl, fun h => ?_⟩
  have e1 : ypath2 (yml_list_merge
        [.ymap (yentries [("k", .ymap (yentries [("x", .yint 1)]))]),
         .ymap (yentries [("k", .yint 5)]),
         .ymap (yentries [("k", .ymap (yentries [("y", .yint 2)]))])]) "k" "x" = none := rfl
  rw [h] at e1
  have e2 : ypath2 (yml_list_merge
        [.ymap (yentries [("k", .ymap (yentries [("x", .yint 1)]))]),
         yml_list_merge
           [.ymap (yentries [("k", .yint 5)]),
            .ymap (yentries [("k", .ymap (yentries [("y", .yint 2)]))])]]) "k" "x" =
      some (.yint 1) := rfl
  rw [e2] at e1
  exact Option.noConfusion e1

theorem snake_scan_eq (fs : List String → List String) (stop : String) :
    ∀ l : List (List String),
      snake_scan fs stop l =
        ((l.takeWhile fun d => !decide (stop ∈ fs d)).map fun d => (d, fs d))
        ++ (((l.dropWhile fun d => !decide (stop ∈ fs d)).take 1).map
              fun d => (d, fs d)) := by
  intro l
  induction l with
  | nil => rfl
  | cons fold rest ih =>
      by_cases h : stop ∈ fs fold
      · simp [snake_scan, h, List.takeWhile_cons, List.dropWhile_cons]
      · simp [snake_scan, h, List.takeWhile_cons, List.dropWhile_cons, ih]

theorem length_le_of_mem_ancestors :
    ∀ (p q : List String), q ∈ ancestors p → q.length ≤ p.length := by
  intro p
  induction p with
  | nil =>
      intro q hq
      simp only [ancestors, List.mem_singleton] at hq
      simp [hq]
  | cons c rest ih =>
      intro q hq
      simp only [ancestors, List.mem_cons] at hq
      rcases hq with rfl | hq
      · simp
      · exact le_trans (ih q hq) (by simp)

theorem ancestors_nodup : ∀ p : List String, (ancestors p).Nodup := by
  intro p
  induction p with
  | nil => simp [ancestors]
  | cons c rest ih =>
      simp only [ancestors, List.nodup_cons]
      refine ⟨fun hmem => ?_, ih⟩
      have := length_le_of_mem_ancestors rest _ hmem
      simp at this

theorem take_length_add_one {α : Type} :
    ∀ (l1 l2 : List α), (l1 ++ l2).take (l1.length + 1) = l1 ++ l2.take 1 := by
  intro l1 l2
  induction l1 with
  | nil => simp
  | cons a t ih => simpa using ih

/-- The directories recorded by the scan are an initial segment of the
ancestor chain. -/
theorem snake_scan_dirs_take (fs : List String → List String)
    (stop : String) (l : List (List String)) :
    ∃ n, (snake_scan fs stop l).map Prod.fst = l.take n := by
  refine ⟨(l.takeWhile fun d => !decide (stop ∈ fs d)).length + 1, ?_⟩
  have hmap : ∀ xs : List (List String),
      (xs.map fun d => (d, fs d)).map Prod.fst = xs := by
    intro xs
    induction xs with
    | nil => rfl
    | cons a t ih => simp [ih]
  rw [snake_scan_eq, List.map_append, hmap, hmap]
  rw [← take_length_add_one, List.takeWhile_append_dropWhile]

theorem snake_scan_dirs_nodup (fs : List String → List String)
    (stop : String) (path : List String) :
    ((snake_scan fs stop (ancestors path)).map Prod.fst).Nodup := by
  obtain ⟨n, hn⟩ := snake_scan_dirs_take fs stop (ancestors path)
  rw [hn]
  exact (ancestors_nodup path).sublist (List.take_sublist n _)

theorem snake_scan_no_stop (fs : List String → List String)
    (stop : String) (l : List (List String))
    (h : ∀ d ∈ l, stop ∉ fs d) :
    (snake_scan fs stop l).map Prod.fst = l := by
  induction l with
  | nil => rfl
  | cons fold rest ih =>
      have hf : stop ∉ fs fold := h fold (by simp)
      simp only [snake_scan, if_neg hf, List.map_cons]
      rw [ih (fun d hd => h d (by simp [hd]))]

theorem snake_scan_pre_stop (fs : List String → List String)
    (stop : String) : ∀ (l : List (List String)) (d : List String),
    d ∈ ((snake_scan fs stop l).map Prod.fst).dropLast → stop ∉ fs d := by
  intro l
  induction l with
  | nil => intro d hd; simp [snake_scan] at hd
  | cons fold rest ih =>
      intro d hd
      by_cases h : stop ∈ fs fold
      · simp [snake_scan, h] at hd
      · simp only [snake_scan, if_neg h, List.map_cons] at hd
        rcases hx : (snake_scan fs stop rest).map Prod.fst with _ | ⟨y, ys⟩
        · rw [hx] at hd; simp at hd
        · rw [hx] at hd
          simp only [List.dropLast, List.mem_cons] at hd
          rcases hd with rfl | hd
          · exact h
          · exact ih d (by rw [hx]; simpa using hd)

/-- C4.  `snake_create` visits the start directory and then each parent in
order:
(1) the scan records exactly the longest sentinel-free initial segment of
the ancestor chain, plus the first sentinel-bearing directory when one
exists (so ascension halts exactly at the first such directory, which is
included);
(2) when no visited directory contains the sentinel the whole ancestor
chain, up to and including the filesystem root, is recorded (the function
is total: no error is raised);
(3) the recorded directories are pairwise distinct;
(4) every recorded directory except possibly the last one is sentinel-free;
(5) concretely, starting three levels below a sentinel-bearing directory
the trail has exactly four entries, ending (deepest-first order, i.e.
before the final reversal) at the sentinel directory. -/
theorem dervo_C4 :
    (∀ (fs : List String → List String) (stop : String) (l : List (List String)),
      snake_scan fs stop l =
        ((l.takeWhile fun d => !decide (stop ∈ fs d)).map fun d => (d, fs d))
        ++ (((l.dropWhile fun d => !decide (stop ∈ fs d)).take 1).map
              fun d => (d, fs d)))
    ∧ (∀ (fs : List String → List String) (stop : String) (path : List String),
        (∀ d ∈ ancestors path, stop ∉ fs d) →
        (snake_scan fs stop (ancestors path)).map Prod.fst = ancestors path)
    ∧ (∀ (fs : List String → List String) (stop : String) (path : List String),
        ((snake_scan fs stop (ancestors path)).map Prod.fst).Nodup)
    ∧ (∀ (fs : List String → List String) (stop : String)
         (l : List (List String)) (d : List String),
        d ∈ ((snake_scan fs stop l).map Prod.fst).dropLast → stop ∉ fs d)
    ∧ ((snake_create (fun d => if d = ["r"] then ["root_cfg.yml"] else [])
          ["c", "b", "a", "r"] "root_cfg.yml").length = 4
       ∧ (snake_scan (fun d => if d = ["r"] then ["root_cfg.yml"] else [])
            "root_cfg.yml" (ancestors ["c", "b", "a", "r"])).map Prod.fst =
          [["c", "b", "a", "r"], ["b", "a", "r"], ["a", "r"], ["r"]]) :=
  ⟨snake_scan_eq, fun fs stop path h => snake_scan_no_stop fs stop _ h,
   fun fs stop path => snake_scan_dirs_nodup fs stop path,
   snake_scan_pre_stop, rfl, rfl⟩

/-- C4 witness: the no-sentinel clause at a concrete two-level path with an
everywhere-empty filesystem (the trail runs to the root and no error
occurs), and the pre-stop clause at the concrete four-entry example. -/
theorem dervo_C4_witness :
    (snake_scan (fun _ => []) "root_cfg.yml" (ancestors ["a", "b"])).map Prod.fst =
      [["a", "b"], ["b"], []]
    ∧ ¬ ("root_cfg.yml" ∈ (fun (d : List String) =>
          if d = ["r"] then ["root_cfg.yml"] else []) ["b", "a", "r"]) :=
  ⟨(dervo_C4.2.1 (fun _ => []) "root_cfg.yml" ["a", "b"]
      (fun d _ => List.not_mem_nil _)).trans rfl,
   dervo_C4.2.2.2.1 (fun d => if d = ["r"] then ["root_cfg.yml"] else [])
      "root_cfg.yml" (ancestors ["c", "b", "a", "r"]) ["b", "a", "r"]
      (by decide)⟩

theorem mem_find_pyeval_queries_one (es : YEntries) (k e : String) :
    (k, e) ∈ find_pyeval_queries_one es ↔
      ∃ s, (k, Yaml.ystr s) ∈ flatten_nested_dict es ∧ matchPyeval s = some e := by
  simp only [find_pyeval_queries_one, List.mem_filterMap]
  constructor
  · rintro ⟨⟨k1, v1⟩, hmem, hmatch⟩
    cases v1 with
    | ystr s =>
        simp only at hmatch
        cases hmv : matchPyeval s with
        | none => rw [hmv] at hmatch; simp at hmatch
        | some e1 =>
            rw [hmv] at hmatch
            simp only [Option.map_some', Option.some.injEq, Prod.mk.injEq] at hmatch
            exact ⟨s, by rw [← hmatch.1]; exact hmem, by rw [hmv, hmatch.2]⟩
    | ynull => simp at hmatch
    | ybool b => simp at hmatch
    | yint n => simp at hmatch
    | ymap m => simp at hmatch
    | yseq l => simp at hmatch
  · rintro ⟨s, hmem, hm⟩
    exact ⟨(k, .ystr s), hmem, by simp [hm]⟩

/-- C6.  Substitution-query scanning and resolution:
(1) a query `(k, e)` is emitted exactly when the flattened configuration
has at dotted key `k` a string leaf matching `(PY|py)@(.+)` with capture
group 2 equal to `e` — in particular non-string leaves and non-matching
strings emit nothing;
(2-4) the template accepts `py@1+1` (expression `1+1`) and the PY-form
with `len` of the quoted three-character literal abc, and rejects `py1+1`;
(5-6) the modelled expression evaluation gives 2 and 3 respectively;
(7) resolving a configuration holding those leaves replaces each matching
leaf by its value at the same dotted key and leaves the non-matching
string and the non-string leaf untouched. -/
theorem dervo_C6 :
    (∀ (es : YEntries) (k e : String),
      (k, e) ∈ find_pyeval_queries_one es ↔
        ∃ s, (k, Yaml.ystr s) ∈ flatten_nested_dict es ∧ matchPyeval s = some e)
    ∧ matchPyeval "py@1+1" = some "1+1"
    ∧ matchPyeval "PY@len(\x27abc\x27)" = some "len(\x27abc\x27)"
    ∧ matchPyeval "py1+1" = none
    ∧ pyEvalExpr "1+1" = some (.yint 2)
    ∧ pyEvalExpr "len(\x27abc\x27)" = some (.yint 3)
    ∧ resolve_pyeval_one (yentries
        [("u", .ystr "py@1+1"), ("v", .ystr "PY@len(\x27abc\x27)"),
         ("w", .ystr "py1+1"), ("z", .yint 7)]) =
      some (yentries
        [("u", .yint 2), ("v", .yint 3),
         ("w", .ystr "py1+1"), ("z", .yint 7)]) :=
  ⟨mem_find_pyeval_queries_one, rfl, rfl, rfl, rfl, rfl, rfl⟩

/-- C10.  With no substitution queries the evaluation step is a no-op:
(1) `_perform_pyeval_updates` called with an empty query dict performs no
host action (no `cfg.py` read, no compile, no exec) and returns the
configurations unchanged;
(2) when the allow-list filters out every discovered query,
`_find_pyeval_queries` returns the empty query dict;
(3) hence in that situation the whole evaluation step is a no-op. -/
theorem dervo_C10 :
    (∀ (snakeHasPy : Nat → Bool) (nLevels : Nat)
       (execUpdates : List (Nat × List (String × Yaml)))
       (yml_configs : List (Nat × YEntries)),
      perform_pyeval_updates snakeHasPy nLevels [] execUpdates yml_configs =
        ([], some yml_configs))
    ∧ (∀ (yml_configs : List (Nat × YEntries)) (allowed : List String),
        (∀ lc ∈ yml_configs, ∀ kq ∈ find_pyeval_queries_one lc.2,
            kq.1 ∉ allowed) →
        find_pyeval_queries yml_configs (some allowed) = [])
    ∧ (∀ (snakeHasPy : Nat → Bool) (nLevels : Nat)
       (execUpdates : List (Nat × List (String × Yaml)))
       (yml_configs : List (Nat × YEntries)) (allowed : List String),
        (∀ lc ∈ yml_configs, ∀ kq ∈ find_pyeval_queries_one lc.2,
            kq.1 ∉ allowed) →
        perform_pyeval_updates snakeHasPy nLevels
          (find_pyeval_queries yml_configs (some allowed))
          execUpdates yml_configs = ([], some yml_configs)) := by
  have h2 : ∀ (yml_configs : List (Nat × YEntries)) (allowed : List String),
      (∀ lc ∈ yml_configs, ∀ kq ∈ find_pyeval_queries_one lc.2,
          kq.1 ∉ allowed) →
      find_pyeval_queries yml_configs (some allowed) = [] := by
    intro cfgs allowed h
    simp only [find_pyeval_queries]
    rw [List.filterMap_eq_nil_iff]
    intro lq hlq
    rw [List.mem_filterMap] at hlq
    obtain ⟨lc, hlc, hsome⟩ := hlq
    by_cases hq : (find_pyeval_queries_one lc.2).isEmpty
    · rw [if_pos hq] at hsome; exact absurd hsome (by simp)
    · rw [if_neg hq] at hsome
      obtain rfl := Option.some.inj hsome
      have hfil : ((lc.1, find_pyeval_queries_one lc.2)).2.filter
          (fun kq => decide (kq.1 ∈ allowed)) = [] := by
        rw [List.filter_eq_nil_iff]
        intro kq hkq
        simpa using h lc hlc kq hkq
      rw [hfil]
      rfl
  refine ⟨fun _ _ _ _ => rfl, h2, ?_⟩
  intro snakeHasPy nLevels execUpdates cfgs allowed h
  rw [h2 cfgs allowed h]
  rfl

/-- C10 witness: a configuration whose single query `secret` is filtered
out by the allow-list `other`; the evaluation step performs no action and
returns the configuration unchanged. -/
theorem dervo_C10_witness :
    (∀ lc ∈ [(0, yentries [("secret", Yaml.ystr "py@1+1")])],
        ∀ kq ∈ find_pyeval_queries_one lc.2, kq.1 ∉ ["other"])
    ∧ perform_pyeval_updates (fun _ => true) 1
        (find_pyeval_queries [(0, yentries [("secret", Yaml.ystr "py@1+1")])]
          (some ["other"]))
        [] [(0, yentries [("secret", Yaml.ystr "py@1+1")])] =
      ([], some [(0, yentries [("secret", Yaml.ystr "py@1+1")])]) :=
  ⟨by decide, dervo_C10.2.2 (fun _ => true) 1 []
      [(0, yentries [("secret", Yaml.ystr "py@1+1")])] ["other"] (by decide)⟩

theorem retry_loop_ok_iff (ok : Nat → Bool) (mk : Nat → CoEvent) :
    ∀ (rem i : Nat),
      (retry_loop ok mk i rem).2 = true ↔ ∃ j, j < rem ∧ ok (i + j) = true := by
  intro rem
  induction rem with
  | zero => intro i; simp [retry_loop]
  | succ r ih =>
      intro i
      by_cases h : ok i
      · simp only [retry_loop, if_pos h]
        exact iff_of_true trivial ⟨0, Nat.succ_pos r, by simpa using h⟩
      · simp only [retry_loop, if_neg h]
        rw [ih (i + 1)]
        constructor
        · rintro ⟨j, hj, hok⟩
          exact ⟨j + 1, by omega, by rwa [show i + (j + 1) = i + 1 + j by omega]⟩
        · rintro ⟨j, hj, hok⟩
          cases j with
          | zero =>
              rw [Nat.add_zero] at hok
              exact absurd hok h
          | succ j0 =>
              exact ⟨j0, by omega, by rwa [show i + 1 + j0 = i + (j0 + 1) by omega]⟩

theorem retry_loop_mem (ok : Nat → Bool) (mk : Nat → CoEvent) :
    ∀ (rem i : Nat) (e : CoEvent), e ∈ (retry_loop ok mk i rem).1 →
      e = CoEvent.sleepE ∨ ∃ j, j < rem ∧ e = mk (i + j) := by
  intro rem
  induction rem with
  | zero => intro i e he; simp [retry_loop] at he
  | succ r ih =>
      intro i e he
      by_cases h : ok i
      · simp only [retry_loop, if_pos h, List.mem_singleton] at he
        exact Or.inr ⟨0, Nat.succ_pos r, by simpa using he⟩
      · simp only [retry_loop, if_neg h, List.mem_cons] at he
        rcases he with rfl | rfl | he
        · exact Or.inr ⟨0, Nat.succ_pos r, by simp⟩
        · exact Or.inl rfl
        · rcases ih (i + 1) e he with h1 | ⟨j, hj, rfl⟩
          · exact Or.inl h1
          · exact Or.inr ⟨j + 1, by omega,
              by rw [show i + (j + 1) = i + 1 + j by omega]⟩

theorem retry_loop_all_fail_count (ok : Nat → Bool) (mk : Nat → CoEvent)
    (p : CoEvent → Bool) (hp : ∀ j, p (mk j) = true)
    (hs : p CoEvent.sleepE = false) :
    ∀ (rem i : Nat), (∀ j, j < rem → ok (i + j) = false) →
      ((retry_loop ok mk i rem).1.filter p).length = rem := by
  intro rem
  induction rem with
  | zero => intro i _; simp [retry_loop]
  | succ r ih =>
      intro i hfail
      have h0 : ok i = false := by simpa using hfail 0 (Nat.succ_pos r)
      simp only [retry_loop, h0, Bool.false_eq_true, if_false, List.filter_cons,
        hp i, hs]
      have := ih (i + 1) (fun j hj => by
        have := hfail (j + 1) (by omega)
        rwa [show i + (j + 1) = i + 1 + j by omega] at this)
      simp [this]

theorem clone_submodules_ok_iff (env : CoEnv) (fold : String) :
    ∀ sms : List String, (clone_submodules env fold sms).2 = true ↔
      ∀ sm ∈ sms, env.cloneOk fold sm = true := by
  intro sms
  induction sms with
  | nil => simp [clone_submodules]
  | cons sm rest ih =>
      by_cases h : env.cloneOk fold sm
      · simp [clone_submodules, h, ih]
      · simp [clone_submodules, h]

theorem clone_submodules_mem (env : CoEnv) (fold : String) :
    ∀ (sms : List String) (e : CoEvent), e ∈ (clone_submodules env fold sms).1 →
      ∃ sm, e = CoEvent.cloneE fold sm := by
  intro sms
  induction sms with
  | nil => intro e he; simp [clone_submodules] at he
  | cons sm rest ih =>
      intro e he
      by_cases h : env.cloneOk fold sm
      · simp only [clone_submodules, if_pos h, List.mem_cons] at he
        rcases he with rfl | he
        · exact ⟨sm, rfl⟩
        · exact ih e he
      · simp only [clone_submodules, if_neg h, List.mem_singleton] at he
        exact ⟨sm, he⟩

theorem perform_ok_iff (env : CoEnv) (fold : String)
    (post_cmd : Option String) (n : Nat) :
    (git_repo_perform_checkout_and_postcmd env fold post_cmd n).2 = true ↔
      (env.cloneOk fold "." = true
       ∧ (∀ sm ∈ env.submodules, env.cloneOk fold sm = true)
       ∧ (post_cmd = none ∨ ∃ i, i < n ∧ env.postOk i = true)) := by
  cases post_cmd with
  | none =>
      simp only [git_repo_perform_checkout_and_postcmd]
      by_cases hc : env.cloneOk fold "." = true
      · rw [if_pos hc]
        by_cases hsub : (clone_submodules env fold env.submodules).2 = true
        · rw [if_pos hsub]
          exact iff_of_true rfl
            ⟨hc, (clone_submodules_ok_iff env fold env.submodules).mp hsub,
             Or.inl (by trivial)⟩
        · rw [if_neg hsub]
          exact iff_of_false (by simp)
            (fun hh => hsub ((clone_submodules_ok_iff env fold
              env.submodules).mpr hh.2.1))
      · rw [if_neg hc]
        exact iff_of_false (by simp) (fun hh => hc hh.1)
  | some cmd =>
      simp only [git_repo_perform_checkout_and_postcmd]
      by_cases hc : env.cloneOk fold "." = true
      · rw [if_pos hc]
        by_cases hsub : (clone_submodules env fold env.submodules).2 = true
        · rw [if_pos hsub]
          by_cases hpost : (retry_loop env.postOk (.postTry fold) 0 n).2 = true
          · rw [if_pos hpost]
            refine iff_of_true rfl
              ⟨hc, (clone_submodules_ok_iff env fold env.submodules).mp hsub,
               Or.inr ?_⟩
            obtain ⟨j, hj, hok⟩ :=
              (retry_loop_ok_iff env.postOk (.postTry fold) n 0).mp hpost
            exact ⟨j, hj, by simpa using hok⟩
          · rw [if_neg hpost]
            refine iff_of_false (by simp) (fun hh => ?_)
            rcases hh.2.2 with hnone | ⟨j, hj, hok⟩
            · exact Option.noConfusion hnone
            · exact hpost ((retry_loop_ok_iff env.postOk (.postTry fold) n 0).mpr
                ⟨j, hj, by simpa using hok⟩)
        · rw [if_neg hsub]
          exact iff_of_false (by simp)
            (fun hh => hsub ((clone_submodules_ok_iff env fold
              env.submodules).mpr hh.2.1))
      · rw [if_neg hc]
        exact iff_of_false (by simp) (fun hh => hc hh.1)

theorem perform_foldOf (env : CoEnv) (fold : String)
    (post_cmd : Option String) (n : Nat) :
    ∀ e ∈ (git_repo_perform_checkout_and_postcmd env fold post_cmd n).1,
      e.foldOf = some fold ∨ e.foldOf = none := by
  intro e he
  have hsub : ∀ e ∈ (clone_submodules env fold env.submodules).1,
      CoEvent.foldOf e = some fold ∨ CoEvent.foldOf e = none := by
    intro e he
    obtain ⟨sm, rfl⟩ := clone_submodules_mem env fold env.submodules e he
    exact Or.inl rfl
  have hpost : ∀ e ∈ (retry_loop env.postOk (.postTry fold) 0 n).1,
      CoEvent.foldOf e = some fold ∨ CoEvent.foldOf e = none := by
    intro e he
    rcases retry_loop_mem env.postOk (.postTry fold) n 0 e he with rfl | ⟨j, _, rfl⟩
    · exact Or.inr rfl
    · exact Or.inl rfl
  have hbase : e = CoEvent.mkdirE fold ∨ e = CoEvent.cloneE fold "." →
      CoEvent.foldOf e = some fold ∨ CoEvent.foldOf e = none := by
    rintro (rfl | rfl) <;> exact Or.inl rfl
  cases post_cmd with
  | none =>
      simp only [git_repo_perform_checkout_and_postcmd] at he
      by_cases hc : env.cloneOk fold "." = true
      · rw [if_pos hc] at he
        by_cases hs : (clone_submodules env fold env.submodules).2 = true
        · rw [if_pos hs] at he
          simp only [List.mem_append, List.mem_cons, List.not_mem_nil,
            or_false] at he
          rcases he with ((rfl | rfl) | hg) | rfl
          · exact Or.inl rfl
          · exact Or.inl rfl
          · exact hsub e hg
          · exact Or.inl rfl
        · rw [if_neg hs] at he
          simp only [List.mem_append, List.mem_cons, List.not_mem_nil,
            or_false] at he
          rcases he with (rfl | rfl) | hg
          · exact Or.inl rfl
          · exact Or.inl rfl
          · exact hsub e hg
      · rw [if_neg hc] at he
        simp only [List.mem_cons, List.not_mem_nil, or_false] at he
        exact hbase he
  | some cmd =>
      simp only [git_repo_perform_checkout_and_postcmd] at he
      by_cases hc : env.cloneOk fold "." = true
      · rw [if_pos hc] at he
        by_cases hs : (clone_submodules env fold env.submodules).2 = true
        · rw [if_pos hs] at he
          by_cases hp : (retry_loop env.postOk (.postTry fold) 0 n).2 = true
          · rw [if_pos hp] at he
            simp only [List.mem_append, List.mem_cons, List.not_mem_nil,
              or_false] at he
            rcases he with (((rfl | rfl) | hg) | hg) | rfl
            · exact Or.inl rfl
            · exact Or.inl rfl
            · exact hsub e hg
            · exact hpost e hg
            · exact Or.inl rfl
          · rw [if_neg hp] at he
            simp only [List.mem_append, List.mem_cons, List.not_mem_nil,
              or_false] at he
            rcases he with ((rfl | rfl) | hg) | hg
            · exact Or.inl rfl
            · exact Or.inl rfl
            · exact hsub e hg
            · exact hpost e hg
        · rw [if_neg hs] at he
          simp only [List.mem_append, List.mem_cons, List.not_mem_nil,
            or_false] at he
          rcases he with (rfl | rfl) | hg
          · exact Or.inl rfl
          · exact Or.inl rfl
          · exact hsub e hg
      · rw [if_neg hc] at he
        simp only [List.mem_cons, List.not_mem_nil, or_false] at he
        exact hbase he

theorem perform_last_of_ok (env : CoEnv) (fold : String)
    (post_cmd : Option String) (n : Nat)
    (h : (git_repo_perform_checkout_and_postcmd env fold post_cmd n).2 = true) :
    (git_repo_perform_checkout_and_postcmd env fold post_cmd n).1.getLast? =
      some (CoEvent.touchFinished fold) := by
  cases post_cmd with
  | none =>
      simp only [git_repo_perform_checkout_and_postcmd] at h ⊢
      by_cases hc : env.cloneOk fold "." = true
      · rw [if_pos hc] at h ⊢
        by_cases hs : (clone_submodules env fold env.submodules).2 = true
        · rw [if_pos hs]
          exact List.getLast?_concat _
        · rw [if_neg hs] at h; simp at h
      · rw [if_neg hc] at h; simp at h
  | some cmd =>
      simp only [git_repo_perform_checkout_and_postcmd] at h ⊢
      by_cases hc : env.cloneOk fold "." = true
      · rw [if_pos hc] at h ⊢
        by_cases hs : (clone_submodules env fold env.submodules).2 = true
        · rw [if_pos hs] at h ⊢
          by_cases hp : (retry_loop env.postOk (.postTry fold) 0 n).2 = true
          · rw [if_pos hp]
            exact List.getLast?_concat _
          · rw [if_neg hp] at h; simp at h
        · rw [if_neg hs] at h; simp at h
      · rw [if_neg hc] at h; simp at h

theorem perform_no_touch_of_fail (env : CoEnv) (fold : String)
    (post_cmd : Option String) (n : Nat)
    (h : (git_repo_perform_checkout_and_postcmd env fold post_cmd n).2 = false) :
    ∀ g, CoEvent.touchFinished g ∉
      (git_repo_perform_checkout_and_postcmd env fold post_cmd n).1 := by
  intro g hg
  have hnotsub : CoEvent.touchFinished g ∉
      (clone_submodules env fold env.submodules).1 := by
    intro hmem
    obtain ⟨sm, hsm⟩ := clone_submodules_mem env fold env.submodules _ hmem
    exact CoEvent.noConfusion hsm
  have hnotpost : CoEvent.touchFinished g ∉
      (retry_loop env.postOk (.postTry fold) 0 n).1 := by
    intro hmem
    rcases retry_loop_mem env.postOk (.postTry fold) n 0 _ hmem with h1 | ⟨j, _, h1⟩ <;>
      exact CoEvent.noConfusion h1
  cases post_cmd with
  | none =>
      simp only [git_repo_perform_checkout_and_postcmd] at h hg
      by_cases hc : env.cloneOk fold "." = true
      · rw [if_pos hc] at h hg
        by_cases hs : (clone_submodules env fold env.submodules).2 = true
        · rw [if_pos hs] at h; simp at h
        · rw [if_neg hs] at hg
          simp only [List.mem_append, List.mem_cons, List.not_mem_nil,
            or_false] at hg
          rcases hg with (hg | hg) | hg
          · exact CoEvent.noConfusion hg
          · exact CoEvent.noConfusion hg
          · exact hnotsub hg
      · rw [if_neg hc] at hg
        simp only [List.mem_cons, List.not_mem_nil, or_false] at hg
        rcases hg with hg | hg <;> exact CoEvent.noConfusion hg
  | some cmd =>
      simp only [git_repo_perform_checkout_and_postcmd] at h hg
      by_cases hc : env.cloneOk fold "." = true
      · rw [if_pos hc] at h hg
        by_cases hs : (clone_submodules env fold env.submodules).2 = true
        · rw [if_pos hs] at h hg
          by_cases hp : (retry_loop env.postOk (.postTry fold) 0 n).2 = true
          · rw [if_pos hp] at h; simp at h
          · rw [if_neg hp] at hg
            simp only [List.mem_append, List.mem_cons, List.not_mem_nil,
              or_false] at hg
            rcases hg with ((hg | hg) | hg) | hg
            · exact CoEvent.noConfusion hg
            · exact CoEvent.noConfusion hg
            · exact hnotsub hg
            · exact hnotpost hg
        · rw [if_neg hs] at hg
          simp only [List.mem_append, List.mem_cons, List.not_mem_nil,
            or_false] at hg
          rcases hg with (hg | hg) | hg
          · exact CoEvent.noConfusion hg
          · exact CoEvent.noConfusion hg
          · exact hnotsub hg
      · rw [if_neg hc] at hg
        simp only [List.mem_cons, List.not_mem_nil, or_false] at hg
        rcases hg with hg | hg <;> exact CoEvent.noConfusion hg

theorem perform_no_check (env : CoEnv) (fold : String)
    (post_cmd : Option String) (n : Nat) :
    ∀ e ∈ (git_repo_perform_checkout_and_postcmd env fold post_cmd n).1,
      e.isCheck = false := by
  intro e he
  have hsub : ∀ e ∈ (clone_submodules env fold env.submodules).1,
      CoEvent.isCheck e = false := by
    intro e he
    obtain ⟨sm, rfl⟩ := clone_submodules_mem env fold env.submodules e he
    rfl
  have hpost : ∀ e ∈ (retry_loop env.postOk (.postTry fold) 0 n).1,
      CoEvent.isCheck e = false := by
    intro e he
    rcases retry_loop_mem env.postOk (.postTry fold) n 0 e he with rfl | ⟨j, _, rfl⟩ <;> rfl
  cases post_cmd with
  | none =>
      simp only [git_repo_perform_checkout_and_postcmd] at he
      by_cases hc : env.cloneOk fold "." = true
      · rw [if_pos hc] at he
        by_cases hs : (clone_submodules env fold env.submodules).2 = true
        · rw [if_pos hs] at he
          simp only [List.mem_append, List.mem_cons, List.not_mem_nil,
            or_false] at he
          rcases he with ((rfl | rfl) | hg) | rfl
          · rfl
          · rfl
          · exact hsub e hg
          · rfl
        · rw [if_neg hs] at he
          simp only [List.mem_append, List.mem_cons, List.not_mem_nil,
            or_false] at he
          rcases he with (rfl | rfl) | hg
          · rfl
          · rfl
          · exact hsub e hg
      · rw [if_neg hc] at he
        simp only [List.mem_cons, List.not_mem_nil, or_false] at he
        rcases he with rfl | rfl <;> rfl
  | some cmd =>
      simp only [git_repo_perform_checkout_and_postcmd] at he
      by_cases hc : env.cloneOk fold "." = true
      · rw [if_pos hc] at he
        by_cases hs : (clone_submodules env fold env.submodules).2 = true
        · rw [if_pos hs] at he
          by_cases hp : (retry_loop env.postOk (.postTry fold) 0 n).2 = true
          · rw [if_pos hp] at he
            simp only [List.mem_append, List.mem_cons, List.not_mem_nil,
              or_false] at he
            rcases he with (((rfl | rfl) | hg) | hg) | rfl
            · rfl
            · rfl
            · exact hsub e hg
            · exact hpost e hg
            · rfl
          · rw [if_neg hp] at he
            simp only [List.mem_append, List.mem_cons, List.not_mem_nil,
              or_false] at he
            rcases he with ((rfl | rfl) | hg) | hg
            · rfl
            · rfl
            · exact hsub e hg
            · exact hpost e hg
        · rw [if_neg hs] at he
          simp only [List.mem_append, List.mem_cons, List.not_mem_nil,
            or_false] at he
          rcases he with (rfl | rfl) | hg
          · rfl
          · rfl
          · exact hsub e hg
      · rw [if_neg hc] at he
        simp only [List.mem_cons, List.not_mem_nil, or_false] at he
        rcases he with rfl | rfl <;> rfl

theorem retry_loop_all_fail_sleep_count (ok : Nat → Bool) (mk : Nat → CoEvent)
    (hp : ∀ j, CoEvent.isSleep (mk j) = false) :
    ∀ (rem i : Nat), (∀ j, j < rem → ok (i + j) = false) →
      ((retry_loop ok mk i rem).1.filter CoEvent.isSleep).length = rem := by
  intro rem
  induction rem with
  | zero => intro i _; simp [retry_loop]
  | succ r ih =>
      intro i hfail
      have h0 : ok i = false := by simpa using hfail 0 (Nat.succ_pos r)
      simp only [retry_loop, h0, Bool.false_eq_true, if_false, List.filter_cons,
        hp i]
      have := ih (i + 1) (fun j hj => by
        have := hfail (j + 1) (by omega)
        rwa [show i + (j + 1) = i + 1 + j by omega] at this)
      simp [this, CoEvent.isSleep]

/-- C3.  `git_repo_perform_checkout_and_postcmd` writes the `FINISHED`
marker only after everything succeeded:
(1) it returns normally exactly when the shared clone succeeds, every
submodule clone succeeds, and — when a `post_cmd` is configured — some
attempt among the `n` retries succeeds;
(2) on the success path the marker touch is the last event, after every
clone and `post_cmd` attempt;
(3) on every failure path the marker is never written;
(4) when every `post_cmd` attempt fails the function raises;
(5) and in that situation it has attempted the command exactly `n` times
with a `time.sleep(5)` after each failed attempt (`n` sleeps). -/
theorem dervo_C3 :
    (∀ (env : CoEnv) (fold : String) (post_cmd : Option String) (n : Nat),
      (git_repo_perform_checkout_and_postcmd env fold post_cmd n).2 = true ↔
        (env.cloneOk fold "." = true
         ∧ (∀ sm ∈ env.submodules, env.cloneOk fold sm = true)
         ∧ (post_cmd = none ∨ ∃ i, i < n ∧ env.postOk i = true)))
    ∧ (∀ (env : CoEnv) (fold : String) (post_cmd : Option String) (n : Nat),
        (git_repo_perform_checkout_and_postcmd env fold post_cmd n).2 = true →
        (git_repo_perform_checkout_and_postcmd env fold post_cmd n).1.getLast? =
          some (CoEvent.touchFinished fold))
    ∧ (∀ (env : CoEnv) (fold : String) (post_cmd : Option String) (n : Nat),
        (git_repo_perform_checkout_and_postcmd env fold post_cmd n).2 = false →
        ∀ g, CoEvent.touchFinished g ∉
          (git_repo_perform_checkout_and_postcmd env fold post_cmd n).1)
    ∧ (∀ (env : CoEnv) (fold cmd : String) (n : Nat),
        (∀ i, i < n → env.postOk i = false) →
        (git_repo_perform_checkout_and_postcmd env fold (some cmd) n).2 = false)
    ∧ (∀ (env : CoEnv) (fold cmd : String) (n : Nat),
        env.cloneOk fold "." = true →
        (∀ sm ∈ env.submodules, env.cloneOk fold sm = true) →
        (∀ i, i < n → env.postOk i = false) →
        ((git_repo_perform_checkout_and_postcmd env fold (some cmd) n).1.filter
            CoEvent.isPostTry).length = n
        ∧ ((git_repo_perform_checkout_and_postcmd env fold (some cmd) n).1.filter
            CoEvent.isSleep).length = n) := by
  have h4 : ∀ (env : CoEnv) (fold cmd : String) (n : Nat),
      (∀ i, i < n → env.postOk i = false) →
      (git_repo_perform_checkout_and_postcmd env fold (some cmd) n).2 = false := by
    intro env fold cmd n hfail
    cases hres : (git_repo_perform_checkout_and_postcmd env fold (some cmd) n).2 with
    | false => rfl
    | true =>
        obtain ⟨_, _, hor⟩ := (perform_ok_iff env fold (some cmd) n).mp hres
        rcases hor with hnone | ⟨i, hi, hok⟩
        · exact Option.noConfusion hnone
        · rw [hfail i hi] at hok
          exact Bool.noConfusion hok
  refine ⟨perform_ok_iff, perform_last_of_ok, perform_no_touch_of_fail, h4, ?_⟩
  intro env fold cmd n hc hall hfail
  have hsub : (clone_submodules env fold env.submodules).2 = true :=
    (clone_submodules_ok_iff env fold env.submodules).mpr hall
  have hp2 : ¬ (retry_loop env.postOk (.postTry fold) 0 n).2 = true := by
    intro hp
    obtain ⟨j, hj, hok⟩ := (retry_loop_ok_iff env.postOk (.postTry fold) n 0).mp hp
    have := hfail j hj
    rw [show (0 : Nat) + j = j by omega] at hok
    rw [this] at hok
    exact Bool.noConfusion hok
  have hfail0 : ∀ j, j < n → env.postOk (0 + j) = false := by
    intro j hj
    rw [show (0 : Nat) + j = j by omega]
    exact hfail j hj
  have hsubfilter : ∀ (p : CoEvent → Bool), (∀ f s, p (CoEvent.cloneE f s) = false) →
      ((clone_submodules env fold env.submodules).1.filter p) = [] := by
    intro p hcl
    rw [List.filter_eq_nil_iff]
    intro e he
    obtain ⟨sm, rfl⟩ := clone_submodules_mem env fold env.submodules e he
    simp [hcl]
  constructor
  · simp only [git_repo_perform_checkout_and_postcmd]
    rw [if_pos hc, if_pos hsub, if_neg hp2]
    rw [List.filter_append, List.filter_append]
    rw [hsubfilter CoEvent.isPostTry (fun f s => rfl)]
    have hmc : ([CoEvent.mkdirE fold, CoEvent.cloneE fold "."].filter
        CoEvent.isPostTry) = [] := rfl
    rw [hmc]
    simp only [List.length_append, List.length_nil]
    have := retry_loop_all_fail_count env.postOk (.postTry fold)
      CoEvent.isPostTry (fun j => rfl) rfl n 0 hfail0
    omega
  · simp only [git_repo_perform_checkout_and_postcmd]
    rw [if_pos hc, if_pos hsub, if_neg hp2]
    rw [List.filter_append, List.filter_append]
    rw [hsubfilter CoEvent.isSleep (fun f s => rfl)]
    have hmc : ([CoEvent.mkdirE fold, CoEvent.cloneE fold "."].filter
        CoEvent.isSleep) = [] := rfl
    rw [hmc]
    simp only [List.length_append, List.length_nil]
    have := retry_loop_all_fail_sleep_count env.postOk (.postTry fold)
      (fun j => rfl) n 0 hfail0
    omega

/-- C3 witness: with clones that succeed, one submodule, and a post
command whose attempts always fail, the function raises after exactly two
attempts and two sleeps, and the marker is never written. -/
theorem dervo_C3_witness :
    (∀ i, i < 2 → (CoEnv.mk (fun _ _ => true) (fun _ => false) ["subm"]).postOk i = false)
    ∧ (git_repo_perform_checkout_and_postcmd
        (CoEnv.mk (fun _ _ => true) (fun _ => false) ["subm"])
        "/co/deadbeef" (some "make") 2).2 = false
    ∧ ((git_repo_perform_checkout_and_postcmd
        (CoEnv.mk (fun _ _ => true) (fun _ => false) ["subm"])
        "/co/deadbeef" (some "make") 2).1.filter CoEvent.isPostTry).length = 2 :=
  ⟨fun _ _ => rfl,
   dervo_C3.2.2.2.1 (CoEnv.mk (fun _ _ => true) (fun _ => false) ["subm"])
     "/co/deadbeef" "make" 2 (fun _ _ => rfl),
   (dervo_C3.2.2.2.2 (CoEnv.mk (fun _ _ => true) (fun _ => false) ["subm"])
     "/co/deadbeef" "make" 2 rfl (fun sm _ => rfl) (fun _ _ => rfl)).1⟩


/-- C2.  `git_repo_careful_checkout` when the deterministic directory
`parent/name` already exists (the freshness hypothesis reflects that
`tempfile.mkdtemp` never returns an existing directory, so the alternate
sibling differs from the deterministic path):
(1) it returns the deterministic directory exactly when one of the `n`
poll attempts finds it to be a valid git checkout whose HEAD equals the
requested sha and which contains the `FINISHED` marker;
(2) on that winning path every event is a read-only poll or sleep — the
function writes nothing anywhere;
(3) when every attempt fails it returns the timestamp-prefixed,
random-infixed, `temp`-suffixed sibling of the deterministic path, no
event of the run writes under the deterministic directory, exactly `n`
poll attempts were made, and when the fallback checkout returns normally
its last event is the marker touch inside the alternate directory. -/
theorem dervo_C2 (env : CarefulEnv) (parent name sha : String)
    (post_cmd : Option String) (n : Nat)
    (hex : env.det_exists = true)
    (hfresh : parent ++ "/" ++ name ≠
      parent ++ "/" ++ env.dtPre ++ env.rand ++ "temp") :
    (0 < n →
      ((git_repo_careful_checkout env parent name sha post_cmd n).2.2 =
          parent ++ "/" ++ name ↔
        ∃ i, i < n ∧
          git_repo_is_checkout_complete (env.detState i) sha = true))
    ∧ ((git_repo_careful_checkout env parent name sha post_cmd n).2.2 =
          parent ++ "/" ++ name →
        ∀ e ∈ (git_repo_careful_checkout env parent name sha post_cmd n).1,
          e.foldOf = none)
    ∧ ((∀ i, i < n →
          git_repo_is_checkout_complete (env.detState i) sha = false) →
        ((git_repo_careful_checkout env parent name sha post_cmd n).2.2 =
            parent ++ "/" ++ env.dtPre ++ env.rand ++ "temp"
         ∧ (∀ e ∈ (git_repo_careful_checkout env parent name sha post_cmd n).1,
              e.foldOf ≠ some (parent ++ "/" ++ name))
         ∧ ((git_repo_careful_checkout env parent name sha post_cmd n).1.filter
              CoEvent.isCheck).length = n
         ∧ ((git_repo_careful_checkout env parent name sha post_cmd n).2.1 = true →
             (git_repo_careful_checkout env parent name sha post_cmd n).1.getLast? =
               some (CoEvent.touchFinished
                 (parent ++ "/" ++ env.dtPre ++ env.rand ++ "temp"))))) := by
  have K : git_repo_careful_checkout env parent name sha post_cmd n =
      (if (retry_loop (fun i => git_repo_is_checkout_complete (env.detState i) sha)
            CoEvent.checkE 0 n).2 = true then
        ((retry_loop (fun i => git_repo_is_checkout_complete (env.detState i) sha)
            CoEvent.checkE 0 n).1, true, parent ++ "/" ++ name)
      else
        ((retry_loop (fun i => git_repo_is_checkout_complete (env.detState i) sha)
            CoEvent.checkE 0 n).1
          ++ (git_repo_perform_checkout_and_postcmd env.coEnv
                (parent ++ "/" ++ env.dtPre ++ env.rand ++ "temp") post_cmd 2).1,
         (git_repo_perform_checkout_and_postcmd env.coEnv
            (parent ++ "/" ++ env.dtPre ++ env.rand ++ "temp") post_cmd 2).2,
         parent ++ "/" ++ env.dtPre ++ env.rand ++ "temp")) := by
    simp only [git_repo_careful_checkout]
    rw [if_pos hex]
  by_cases hpoll : (retry_loop
      (fun i => git_repo_is_checkout_complete (env.detState i) sha)
      CoEvent.checkE 0 n).2 = true
  · rw [if_pos hpoll] at K
    refine ⟨fun hn => ?_, fun _ e he => ?_, fun hfail => ?_⟩
    · rw [K]
      refine iff_of_true rfl ?_
      obtain ⟨j, hj, hok⟩ := (retry_loop_ok_iff _ CoEvent.checkE n 0).mp hpoll
      exact ⟨j, hj, by simpa using hok⟩
    · rw [K] at he
      rcases retry_loop_mem _ CoEvent.checkE n 0 e he with rfl | ⟨j, _, rfl⟩ <;> rfl
    · exfalso
      obtain ⟨j, hj, hok⟩ := (retry_loop_ok_iff _ CoEvent.checkE n 0).mp hpoll
      have hj2 := hfail j hj
      rw [show (0 : Nat) + j = j by omega] at hok
      rw [hj2] at hok
      exact Bool.noConfusion hok
  · rw [if_neg hpoll] at K
    refine ⟨fun hn => ?_, fun hdet => ?_, fun hfail => ?_⟩
    · rw [K]
      refine iff_of_false (fun h => hfresh h.symm) ?_
      rintro ⟨i, hi, hok⟩
      exact hpoll ((retry_loop_ok_iff _ CoEvent.checkE n 0).mpr
        ⟨i, hi, by simpa using hok⟩)
    · exfalso
      rw [K] at hdet
      exact hfresh hdet.symm
    · refine ⟨by rw [K], ?_, ?_, ?_⟩
      · intro e he
        rw [K] at he
        rcases List.mem_append.mp he with hg | hg
        · rcases retry_loop_mem _ CoEvent.checkE n 0 e hg with rfl | ⟨j, _, rfl⟩ <;>
            exact fun hcon => Option.noConfusion hcon
        · rcases perform_foldOf env.coEnv _ post_cmd 2 e hg with hof | hof
          · rw [hof]
            intro hcon
            exact hfresh (Option.some.inj hcon).symm
          · rw [hof]
            exact fun hcon => Option.noConfusion hcon
      · rw [K]
        simp only [List.filter_append, List.length_append]
        have h1 := retry_loop_all_fail_count
          (fun i => git_repo_is_checkout_complete (env.detState i) sha)
          CoEvent.checkE CoEvent.isCheck (fun j => rfl) rfl n 0
          (fun j hj => by
            rw [show (0 : Nat) + j = j by omega]
            exact hfail j hj)
        have h2 : ((git_repo_perform_checkout_and_postcmd env.coEnv
            (parent ++ "/" ++ env.dtPre ++ env.rand ++ "temp") post_cmd 2).1.filter
            CoEvent.isCheck) = [] := by
          rw [List.filter_eq_nil_iff]
          intro e he
          simp [perform_no_check env.coEnv _ post_cmd 2 e he]
        rw [h2, h1]
        simp
      · intro hok
        rw [K] at hok ⊢
        have hlast := perform_last_of_ok env.coEnv
          (parent ++ "/" ++ env.dtPre ++ env.rand ++ "temp") post_cmd 2 hok
        have hne : (git_repo_perform_checkout_and_postcmd env.coEnv
            (parent ++ "/" ++ env.dtPre ++ env.rand ++ "temp") post_cmd 2).1 ≠ [] := by
          intro h0
          rw [h0] at hlast
          exact Option.noConfusion hlast
        rw [List.getLast?_append_of_ne_nil _ hne]
        exact hlast

/-- C2 witness: with a deterministic directory that polls as complete on
the first attempt the existing path is returned, and with a directory
that never polls as complete the timestamp-prefixed alternate sibling is
returned. -/
theorem dervo_C2_witness :
    (git_repo_careful_checkout
        (CarefulEnv.mk (CoEnv.mk (fun _ _ => true) (fun _ => true) [])
          true (fun _ => some (DirState.mk true "abc" true)) "2024-01-01_" "X")
        "/root" "abc" "abc" none 2).2.2 = "/root" ++ "/" ++ "abc"
    ∧ (git_repo_careful_checkout
        (CarefulEnv.mk (CoEnv.mk (fun _ _ => true) (fun _ => true) [])
          true (fun _ => none) "2024-01-01_" "X")
        "/root" "abc" "abc" none 2).2.2 =
      "/root" ++ "/" ++ "2024-01-01_" ++ "X" ++ "temp" :=
  ⟨((dervo_C2
      (CarefulEnv.mk (CoEnv.mk (fun _ _ => true) (fun _ => true) [])
        true (fun _ => some (DirState.mk true "abc" true)) "2024-01-01_" "X")
      "/root" "abc" "abc" none 2 rfl (by decide)).1 (by omega)).mpr
        ⟨0, by omega, by decide⟩,
   ((dervo_C2
      (CarefulEnv.mk (CoEnv.mk (fun _ _ => true) (fun _ => true) [])
        true (fun _ => none) "2024-01-01_" "X")
      "/root" "abc" "abc" none 2 rfl (by decide)).2.2 (fun i _ => rfl)).1⟩


mutual
theorem strict_none_iff_hasDup : ∀ d : RawDoc,
    yml_from_file_strict d = none ↔ rawHasDup d = true
  | .rleaf y => by simp [yml_from_file_strict, rawHasDup]
  | .rmap es => by
      simp only [yml_from_file_strict, rawHasDup]
      by_cases h : es.keys.Nodup
      · rw [if_pos h, if_pos h, ← strictEntries_none_iff_hasDup es]
        cases strictEntries es <;> simp
      · rw [if_neg h, if_neg h]
        simp

theorem strictEntries_none_iff_hasDup : ∀ es : RawEntries,
    strictEntries es = none ↔ rawEntriesHasDup es = true
  | .nil => by simp [strictEntries, rawEntriesHasDup]
  | .cons k v rest => by
      simp only [strictEntries, rawEntriesHasDup, Bool.or_eq_true]
      rw [← strict_none_iff_hasDup v, ← strictEntries_none_iff_hasDup rest]
      cases yml_from_file_strict v <;> cases strictEntries rest <;> simp
end

/-- C7 counterexample: the fragment whose text binds `k` twice — once to 1
and once to 2 — is loaded by the `merge_yml_orderly` path
(`yaml.safe_load`, `experiment.py` line 127) without any error: the load
succeeds and silently yields the mapping binding `k` to the second value,
contradicting the claim that loading such a fragment fails with a
duplicate-key error and never silently picks one of the two values. -/
theorem dervo_C7_counterexample :
    merge_yml_orderly
        [RawDoc.rmap (.cons "k" (.rleaf (.yint 1))
          (.cons "k" (.rleaf (.yint 2)) .nil))] =
      Yaml.ymap (.cons "k" (.yint 2) .nil)
    ∧ yaml_safe_load
        (RawDoc.rmap (.cons "k" (.rleaf (.yint 1))
          (.cons "k" (.rleaf (.yint 2)) .nil))) =
      Yaml.ymap (.cons "k" (.yint 2) .nil) :=
  ⟨rfl, rfl⟩

/-- C7 (amended).  The duplicate-key guarantee holds for the snake loader
(`vst.exp.yml_from_file`, used by `_load_yml_from_snake` and modelled from
the spec since `vst` is an external package): a fragment with a repeated
key at any nesting level fails to load with the DuplicateKey error, and a
fragment with no repeated key loads successfully; the legacy
`merge_yml_orderly` path (`yaml.safe_load`) does not have this guarantee —
it silently keeps the last occurrence (see the counterexample). -/
theorem dervo_C7 :
    (∀ d : RawDoc, rawHasDup d = true → yml_from_file_strict d = none)
    ∧ (∀ d : RawDoc, rawHasDup d = false → ∃ y, yml_from_file_strict d = some y) := by
  constructor
  · intro d h
    exact (strict_none_iff_hasDup d).mpr h
  · intro d h
    cases hs : yml_from_file_strict d with
    | none =>
        rw [(strict_none_iff_hasDup d).mp hs] at h
        exact Bool.noConfusion h
    | some y => exact ⟨y, rfl⟩

/-- C7 witness: the strict loader rejects the concrete duplicate-key
fragment and accepts its duplicate-free variant. -/
theorem dervo_C7_witness :
    rawHasDup (RawDoc.rmap (.cons "k" (.rleaf (.yint 1))
        (.cons "k" (.rleaf (.yint 2)) .nil))) = true
    ∧ yml_from_file_strict (RawDoc.rmap (.cons "k" (.rleaf (.yint 1))
        (.cons "k" (.rleaf (.yint 2)) .nil))) = none
    ∧ rawHasDup (RawDoc.rmap (.cons "k" (.rleaf (.yint 1))
        (.cons "j" (.rleaf (.yint 2)) .nil))) = false
    ∧ (∃ y, yml_from_file_strict (RawDoc.rmap (.cons "k" (.rleaf (.yint 1))
        (.cons "j" (.rleaf (.yint 2)) .nil))) = some y) :=
  ⟨by decide,
   dervo_C7.1 (RawDoc.rmap (.cons "k" (.rleaf (.yint 1))
     (.cons "k" (.rleaf (.yint 2)) .nil))) (by decide),
   by decide,
   dervo_C7.2 (RawDoc.rmap (.cons "k" (.rleaf (.yint 1))
     (.cons "j" (.rleaf (.yint 2)) .nil))) (by decide)⟩

/-- C8 counterexample: when the assembled script raises after having
changed directory, `_perform_pyeval_updates` propagates the exception
before reaching the `os.chdir(cwd_before)` at line 215 (there is no
try/finally), so the working directory is left where the script put it —
not restored — contradicting the claim that it is restored on every exit
path. -/
theorem dervo_C8_counterexample :
    (perform_pyeval_cwd "/home/user" (.raised "/exp/fold")).2 = "/exp/fold"
    ∧ (perform_pyeval_cwd "/home/user" (.raised "/exp/fold")).1 = false
    ∧ "/exp/fold" ≠ "/home/user" :=
  ⟨rfl, rfl, by decide⟩

/-- C8 (amended).  The working directory is restored to its pre-evaluation
value when the assembled script runs to completion; when executing it
raises, the restore is skipped and the process is left in whatever
directory the script last selected. -/
theorem dervo_C8 :
    (∀ (cwd_before c : String),
      perform_pyeval_cwd cwd_before (.done c) = (true, cwd_before))
    ∧ (∀ (cwd_before c : String),
      perform_pyeval_cwd cwd_before (.raised c) = (false, c)) :=
  ⟨fun _ _ => rfl, fun _ _ => rfl⟩

/-- C9 counterexample: the cited `prepare_updates_to_yml_given_py`
path executes the script with `exec(code, globals())`.  Concretely, with a
host module namespace binding `log` and a script effect that adds a
binding `leaked`: the namespace the script sees contains the host binding
`log` (not in the fixed helper set), and after the call the host module
globals contain `leaked` — which the next evaluation on this path then
sees.  Host bindings are visible, script bindings escape and persist. -/
theorem dervo_C9_counterexample :
    (prepare_updates_exec_scoping [("log", PyObj.pyobj "logger")]
        (fun s => ("leaked", PyObj.pyobj "x") :: s)).1 =
      [("log", PyObj.pyobj "logger")]
    ∧ ("leaked", PyObj.pyobj "x") ∈
        (prepare_updates_exec_scoping [("log", PyObj.pyobj "logger")]
          (fun s => ("leaked", PyObj.pyobj "x") :: s)).2
    ∧ ("leaked", PyObj.pyobj "x") ∈
        (prepare_updates_exec_scoping
          (prepare_updates_exec_scoping [("log", PyObj.pyobj "logger")]
            (fun s => ("leaked", PyObj.pyobj "x") :: s)).2
          (fun s => s)).1 :=
  ⟨rfl, by decide, by decide⟩

/-- C9 (amended).  The isolation holds for the `_perform_pyeval_updates`
path: the namespace handed to `exec` is exactly `PYEVAL_SCOPE` (the `grab`
callable alone — `Path`, `os` and `_DRV_PYEVAL` are added by the prelude
of the unit itself, covered by the effect function), the host module globals are
returned untouched whatever the script effect does to its namespace, and
a subsequent evaluation again receives exactly `PYEVAL_SCOPE`; the
`prepare_updates_to_yml_given_py` path cited by the claim instead hands
`exec` the host globals themselves (see the counterexample). -/
theorem dervo_C9 :
    (∀ (hostGlobals : Scope) (execEffect : Scope → Scope),
      (perform_pyeval_exec_scoping hostGlobals execEffect).2.1 = PYEVAL_SCOPE)
    ∧ (∀ (hostGlobals : Scope) (execEffect : Scope → Scope),
      (perform_pyeval_exec_scoping hostGlobals execEffect).1 = hostGlobals)
    ∧ (∀ (hostGlobals : Scope) (eff1 eff2 : Scope → Scope),
      (perform_pyeval_exec_scoping
        (perform_pyeval_exec_scoping hostGlobals eff1).1 eff2).2.1 = PYEVAL_SCOPE)
    ∧ (∀ (hostGlobals : Scope) (execEffect : Scope → Scope),
      (prepare_updates_exec_scoping hostGlobals execEffect).1 = hostGlobals) :=
  ⟨fun _ _ => rfl, fun _ _ => rfl, fun _ _ _ => rfl, fun _ _ => rfl⟩


/-- C5 (amended).  The fold of `yml_list_merge` is compatible with grouping
on the left: merging the list A,B,C equals merging the two-element list
whose first element is the merge of A,B and whose second is C.  (The
right-grouped form of the original claim fails, see the counterexample.) -/
theorem dervo_C5 (A B C : Yaml) :
    yml_list_merge [A, B, C] =
      yml_list_merge [yml_list_merge [A, B], C] := by
  simp only [yml_list_merge, List.foldl, gir_merge_dicts_empty]

end Dervo
